import Mathlib

/-!
Verification development for the electoral-roll extraction engine
(`extract.py`).  The extraction core is embedded shallowly: every regex
scan of the Python source is translated into an executable scanner over
`List Char` with Python `re` semantics (leftmost match, greedy pieces,
word boundaries with CPython's `\w`), and the record assembly, block
segmentation and header-metadata resolution are translated function by
function.  Theorems about the claims of the specification follow the
definitions.
-/

set_option maxRecDepth 8192

/-! ## Character classes

Python `re` classes used by the source, restricted to the scripts the
program processes (ASCII and Devanagari).  CPython's `\s` on ASCII text
is the set below; `\w` is alphanumerics plus underscore, where Devanagari
letters and digits count as alphanumeric but combining vowel signs and
marks (category Mn/Mc, e.g. U+093E..U+094D) do not. -/

/-- Whitespace as matched by Python's `\s` on the ASCII range. -/
def isWs (c : Char) : Bool :=
  c = ' ' || c = '\t' || c = '\n' || c = '\r' || c = '\x0b' || c = '\x0c'

/-- The class `[A-Z0-9]` of the de-split substitution and `EPIC_REGEX`. -/
def isUD (c : Char) : Bool :=
  ('A' ≤ c && c ≤ 'Z') || ('0' ≤ c && c ≤ '9')

/-- ASCII decimal digit, the class `[0-9]` / `\d`. -/
def isDigitCh (c : Char) : Bool := '0' ≤ c && c ≤ '9'

/-- The class `[1-9]` of `AGE_REGEX`. -/
def isNZDigit (c : Char) : Bool := '1' ≤ c && c ≤ '9'

/-- The class `[A-Z]`. -/
def isUpperAZ (c : Char) : Bool := 'A' ≤ c && c ≤ 'Z'

/-- The class `[a-z]`. -/
def isLowerAZ (c : Char) : Bool := 'a' ≤ c && c ≤ 'z'

/-- The Devanagari block `[ऀ-ॿ]` used by the Hindi-token scans. -/
def isDeva (c : Char) : Bool := 0x900 ≤ c.toNat && c.toNat ≤ 0x97F

/-- The class `[A-Za-zऀ-ॿ]` of the relation-name capture. -/
def isRelChar (c : Char) : Bool := c.isAlpha || isDeva c

/-- Python `\w` over the program's scripts: ASCII alphanumerics and
underscore, plus Devanagari letters and digits (Unicode Lo/Nd); the
block's combining signs and marks are not word characters, matching
CPython `re`. -/
def isWordChar (c : Char) : Bool :=
  c.isAlphanum || c = '_' ||
  (0x904 ≤ c.toNat && c.toNat ≤ 0x939) || c.toNat = 0x93D ||
  c.toNat = 0x950 ||
  (0x958 ≤ c.toNat && c.toNat ≤ 0x961) ||
  (0x966 ≤ c.toNat && c.toNat ≤ 0x96F) ||
  (0x971 ≤ c.toNat && c.toNat ≤ 0x97F)

/-- Case-insensitive character comparison, as under `re.IGNORECASE`;
`Char.toLower` folds exactly the ASCII range, which agrees with Python
on ASCII and on the caseless Devanagari script. -/
def eqCI (a b : Char) : Bool := a.toLower == b.toLower

/-! ## String helpers mirroring Python built-ins -/

/-- Python `str.strip()` over the whitespace class above. -/
def pyStrip (s : String) : String :=
  String.mk (((s.toList.dropWhile isWs).reverse.dropWhile isWs).reverse)

/-- Python `str.upper()`; `Char.toUpper` maps exactly `a-z`, which agrees
with Python on the ASCII-plus-Devanagari inputs of this program. -/
def pyUpper (s : String) : String := String.mk (s.toList.map Char.toUpper)

/-- Whether `needle` occurs starting at some suffix of `hay`. -/
def subAt (needle : List Char) : List Char → Bool
  | [] => needle.isEmpty
  | c :: rest => needle.isPrefixOf (c :: rest) || subAt needle rest

/-- Python substring containment `needle in hay`. -/
def containsSub (hay needle : String) : Bool :=
  subAt needle.toList hay.toList

/-- Python `os.path.basename` for POSIX paths: the part after the last
slash. -/
def basename (p : String) : String :=
  String.mk ((p.toList.reverse.takeWhile (fun c => c ≠ '/')).reverse)

/-- Python `dict.get(k, d)` over a header-metadata mapping. -/
def metaGet (meta : String → Option String) (k d : String) : String :=
  (meta k).getD d

/-- The empty header-metadata mapping (`header_meta = {}` in
`extract_from_pdf` when a document has no pages). -/
def noMeta : String → Option String := fun _ => none

/-! ## The de-split pre-pass

Line 116 of the source:
`norm = re.sub(r'([A-Z0-9])\s+([A-Z0-9])', r'\1\2', text)`.
`re.sub` scans left to right; a match consumes both characters and the
whitespace between them, and scanning resumes after the match.  A failed
attempt advances one character.  The fuel argument is the length of the
list, which bounds the recursion; the fuel-exhausted branch returns the
remaining input and is never reached. -/

/-- One left-to-right pass of the de-split substitution. -/
def desplitF : Nat → List Char → List Char
  | 0, l => l
  | _ + 1, [] => []
  | n + 1, c :: rest =>
    if isUD c then
      match rest.dropWhile isWs with
      | d :: rest3 =>
        if isUD d && !(rest.takeWhile isWs).isEmpty then
          c :: d :: desplitF n rest3
        else
          c :: desplitF n rest
      | [] => c :: desplitF n rest
    else
      c :: desplitF n rest

/-- The de-split pass on a character list. -/
def desplit (l : List Char) : List Char := desplitF l.length l

/-- The de-split pass on a string: the whole of the source's text
normalisation of a block (`norm` at line 116). -/
def desplitStr (s : String) : String := String.mk (desplit s.toList)

/-- Whether the de-split pattern `([A-Z0-9])\s+([A-Z0-9])` matches
anywhere in the list. -/
def hasSplitPair : List Char → Bool
  | [] => false
  | c :: rest =>
    (isUD c && !(rest.takeWhile isWs).isEmpty &&
      (match rest.dropWhile isWs with
       | d :: _ => isUD d
       | [] => false)) ||
    hasSplitPair rest

/-! ## EPIC search

`EPIC_REGEX = re.compile(r'\b[A-Z0-9]{5,}\b')`, used with `.search`.
A match starts at a word boundary on a `[A-Z0-9]` run of length at least
five whose end is also a boundary; since every inner position of the run
is a word character, only the maximal run can close with a boundary. -/

/-- Leftmost `EPIC_REGEX` match; the flag carries whether the previous
character was a word character (false at the start of input). -/
def epicScan : Bool → List Char → Option (List Char)
  | _, [] => none
  | prevW, c :: rest =>
    if isUD c && !prevW then
      let run := c :: rest.takeWhile isUD
      let after := rest.dropWhile isUD
      if 5 ≤ run.length &&
         (match after with
          | [] => true
          | d :: _ => !isWordChar d) then
        some run
      else
        epicScan (isWordChar c) rest
    else
      epicScan (isWordChar c) rest

/-- A line opens a new block in `extract_from_pdf` exactly when
`EPIC_REGEX.search(line)` succeeds. -/
def hasEpic (line : String) : Bool := (epicScan false line.toList).isSome

/-! ## Gender search

`GENDER_REGEX = re.compile(r'\b(M|F|m|f|पुरुष|महिला|स्त्री)\b', re.IGNORECASE)`,
used with `.search`; the captured group is the input slice.  Under
`IGNORECASE` the single-letter alternatives match either case; the
Devanagari alternatives are caseless literals.  At any one position at
most one alternative can match, so alternation backtracking never
changes the outcome. -/

/-- The alternative of `GENDER_REGEX` matching at the head of the input,
with the remaining input. -/
def genderTokenAt (s : List Char) : Option (List Char × List Char) :=
  match s with
  | [] => none
  | c :: rest =>
    if c = 'M' || c = 'm' || c = 'F' || c = 'f' then
      some ([c], rest)
    else if "पुरुष".toList.isPrefixOf (c :: rest) then
      some ("पुरुष".toList, (c :: rest).drop 5)
    else if "महिला".toList.isPrefixOf (c :: rest) then
      some ("महिला".toList, (c :: rest).drop 5)
    else if "स्त्री".toList.isPrefixOf (c :: rest) then
      some ("स्त्री".toList, (c :: rest).drop 6)
    else
      none

/-- Word boundary after a match ending in `lastC`, before `rest`. -/
def boundAfter (lastC : Char) (rest : List Char) : Bool :=
  match rest with
  | [] => isWordChar lastC
  | d :: _ => isWordChar lastC != isWordChar d

/-- Leftmost `GENDER_REGEX` match (the captured token). -/
def genderScan : Bool → List Char → Option (List Char)
  | _, [] => none
  | prevW, c :: rest =>
    if prevW != isWordChar c then
      match genderTokenAt (c :: rest) with
      | some (tok, after) =>
        if boundAfter (tok.getLastD c) after then some tok
        else genderScan (isWordChar c) rest
      | none => genderScan (isWordChar c) rest
    else
      genderScan (isWordChar c) rest

/-- Lines 42-50: `normalize_gender`.  Python's `if not g` is the empty
string on this call path; the final branch returns the stripped,
upper-cased input itself. -/
def normalizeGender (g : String) : Option String :=
  if g = "" then none
  else
    let u := pyUpper (pyStrip g)
    if u = "M" || u = "पुरुष" then some "M"
    else if u = "F" || u = "महिला" || u = "स्त्री" then some "F"
    else some u

/-! ## Age

Lines 123-127: iterate the matches of `\b([1-9][0-9]?)\b` in order and
keep the first whose value `a` satisfies `17 < int(a) < 121`.  A
two-character candidate whose tail has no closing boundary cannot fall
back to one character, because its second character is a digit and hence
a word character. -/

/-- Numeric value of a matched one- or two-digit token. -/
def digitVal (c : Char) : Nat := c.toNat - 48

/-- Leftmost qualifying age token; the fuel is the input length and
bounds the recursion, with the exhausted branch never reached. -/
def ageScanF : Nat → Bool → List Char → Option (List Char)
  | 0, _, _ => none
  | _ + 1, _, [] => none
  | n + 1, prevW, c :: rest =>
    if (prevW != isWordChar c) && isNZDigit c then
      match rest with
      | [] =>
        if 17 < digitVal c && digitVal c < 121 then some [c] else none
      | d :: rest2 =>
        if isDigitCh d then
          if boundAfter d rest2 then
            if 17 < digitVal c * 10 + digitVal d &&
               digitVal c * 10 + digitVal d < 121 then
              some [c, d]
            else
              ageScanF n true rest2
          else
            ageScanF n (isWordChar c) rest
        else if !isWordChar d then
          if 17 < digitVal c && digitVal c < 121 then some [c]
          else ageScanF n (isWordChar c) rest
        else
          ageScanF n (isWordChar c) rest
    else
      ageScanF n (isWordChar c) rest

/-- Leftmost qualifying age token of the block text. -/
def ageScan (s : List Char) : Option (List Char) := ageScanF s.length false s

/-! ## Serial

Lines 129-132: `re.match(r'^\s*(\d+)', norm)`. -/

/-- Leading serial digits after optional whitespace. -/
def serialOf (s : List Char) : Option (List Char) :=
  let r := s.dropWhile isWs
  let ds := r.takeWhile isDigitCh
  if ds.isEmpty then none else some ds

/-! ## Name candidates

Lines 152-168: `re.findall(r'\b([A-Z][a-z]+)\b', norm)` and
`re.findall(r'[ऀ-ॿ]+', norm)`.  Both collect non-overlapping
leftmost matches; scanning resumes after each match.  The fuel is the
input length and bounds the recursion; the exhausted branch is never
reached. -/

/-- All `\b[A-Z][a-z]+\b` tokens, in order. -/
def enScanF : Nat → Bool → List Char → List String
  | 0, _, _ => []
  | _ + 1, _, [] => []
  | n + 1, prevW, c :: rest =>
    if (prevW != isWordChar c) && isUpperAZ c then
      let run := rest.takeWhile isLowerAZ
      let after := rest.dropWhile isLowerAZ
      if !run.isEmpty && boundAfter (run.getLastD c) after then
        String.mk (c :: run) :: enScanF n true after
      else
        enScanF n (isWordChar c) rest
    else
      enScanF n (isWordChar c) rest

/-- All maximal Devanagari-block runs, in order. -/
def hiScanF : Nat → List Char → List String
  | 0, _ => []
  | _ + 1, [] => []
  | n + 1, c :: rest =>
    if isDeva c then
      String.mk (c :: rest.takeWhile isDeva) :: hiScanF n (rest.dropWhile isDeva)
    else
      hiScanF n rest

/-! ## House number

Lines 171-174:
`re.search(r'(?:H\.?\s*No\.?:?\s*|मकान\s*सखंया\s*[:：]?\s*)(\w+)', norm, re.IGNORECASE)`.
Each optional piece is decided greedily; a shorter choice always leaves
the scanner on a character that can satisfy neither the next literal nor
`\w`, so greedy matching is exact here. -/

/-- Require one character, case-insensitively. -/
def ciChar (c : Char) : List Char → Option (List Char)
  | [] => none
  | d :: rest => if eqCI d c then some rest else none

/-- Require a literal, character by character, case-insensitively. -/
def litCI : List Char → List Char → Option (List Char)
  | [], s => some s
  | c :: cs, s => (ciChar c s).bind (litCI cs)

/-- Consume one optional literal character. -/
def optChar (c : Char) (s : List Char) : List Char :=
  match s with
  | d :: rest => if d = c then rest else d :: rest
  | [] => []

/-- Consume the optional `[:：]` of the Hindi label. -/
def optColon (s : List Char) : List Char :=
  match s with
  | d :: rest => if d = ':' || d = '：' then rest else d :: rest
  | [] => []

/-- The label alternative `H\.?\s*No\.?:?\s*` at the current position. -/
def houseLabel1 (s : List Char) : Option (List Char) :=
  (ciChar 'H' s).bind fun s1 =>
    let s2 := (optChar '.' s1).dropWhile isWs
    (ciChar 'N' s2).bind fun s3 =>
      (ciChar 'O' s3).bind fun s4 =>
        some ((optColon' s4))
where
  /-- Remaining pieces `\.?:?\s*` after `No`. -/
  optColon' (s4 : List Char) : List Char :=
    ((optChar ':' (optChar '.' s4)).dropWhile isWs)

/-- The label alternative `मकान\s*सखंया\s*[:：]?\s*` at the current
position (the source spells the Hindi label with this exact garbled
form). -/
def houseLabel2 (s : List Char) : Option (List Char) :=
  (litCI "मकान".toList s).bind fun s1 =>
    (litCI "सखंया".toList (s1.dropWhile isWs)).bind fun s2 =>
      some ((optColon (s2.dropWhile isWs)).dropWhile isWs)

/-- The capture `(\w+)` after a matched label. -/
def wordTok (s : List Char) : Option (List Char) :=
  let t := s.takeWhile isWordChar
  if t.isEmpty then none else some t

/-- Both alternatives, in the pattern's order, at one position. -/
def houseAt (s : List Char) : Option (List Char) :=
  match (houseLabel1 s).bind wordTok with
  | some t => some t
  | none => (houseLabel2 s).bind wordTok

/-- Leftmost house-number capture. -/
def houseSearch : List Char → Option (List Char)
  | [] => none
  | c :: rest =>
    match houseAt (c :: rest) with
    | some t => some t
    | none => houseSearch rest

/-! ## Relation

Lines 16-20 and 134-149.  The keys of `RELATION_TYPE_MAP` are iterated
in dictionary insertion order; the first key whose upper-cased form is a
substring of the upper-cased block text decides the relation type, and
the relation name is captured by
`re.search(escape(key) + r'\s+([A-Za-zऀ-ॿ]+)', norm, re.IGNORECASE)`. -/

/-- The relation keyword table in its insertion order. -/
def relationKeys : List (String × String) :=
  [("S/O", "Father"), ("SON OF", "Father"), ("FATHER", "Father"),
   ("W/O", "Husband"), ("WIFE OF", "Husband"), ("HUSBAND", "Husband"),
   ("पिता", "Father"), ("पति", "Husband")]

/-- First table entry whose upper-cased key occurs in the upper-cased
block text. -/
def findRel : List (String × String) → String → Option (String × String)
  | [], _ => none
  | kv :: rest, up =>
    if containsSub up (pyUpper kv.1) then some kv else findRel rest up

/-- Leftmost case-insensitive occurrence of `key` followed by `\s+` and
a `[A-Za-zऀ-ॿ]+` token; returns the token. -/
def captureAfter (key : List Char) : List Char → Option (List Char)
  | [] => if key.isEmpty then none else none
  | c :: rest =>
    match litCI key (c :: rest) with
    | some r1 =>
      let ws := r1.takeWhile isWs
      let r2 := r1.dropWhile isWs
      let tok := r2.takeWhile isRelChar
      if !ws.isEmpty && !tok.isEmpty then some tok
      else captureAfter key rest
    | none => captureAfter key rest

/-- Lines 134-149: relation type and relation name of a normalised
block.  When no table key occurs, the explicit Hindi fallback searches
`पिता` then `पति` (setting only the type). -/
def relationOf (norm : String) : Option String × Option String :=
  match findRel relationKeys (pyUpper norm) with
  | some kv =>
    (some kv.2, (captureAfter kv.1.toList norm.toList).map String.mk)
  | none =>
    if containsSub norm "पिता" then (some "Father", none)
    else if containsSub norm "पति" then (some "Husband", none)
    else (none, none)

/-- Line 121: the gender field of a normalised block,
`normalize_gender(gender_m.group(1)) if gender_m else None`. -/
def genderOf (norm : List Char) : Option String :=
  match genderScan false norm with
  | some g => normalizeGender (String.mk g)
  | none => none

/-! ## The assembled row

Lines 115-202: `parse_voter_block`.  The function is total; every
unresolved field is the `None` sentinel.  The header metadata is the
dictionary produced per document, accessed with `.get`. -/

/-- The fixed output row of `parse_voter_block`. -/
structure VoterRow where
  stateName : Option String
  vidhanNameNumber : String
  boothNameNumber : String
  serial : Option String
  voterName : Option String
  epic : Option String
  relationName : Option String
  relationKind : Option String
  house : Option String
  age : Option String
  gender : Option String
  sourcePdf : String
deriving DecidableEq

/-- Lines 115-202, field by field in the source's order. -/
def parseVoterBlock (text : String) (meta : String → Option String)
    (src : String) : VoterRow :=
  let norm := desplit text.toList
  let epic := (epicScan false norm).map String.mk
  let gender := genderOf norm
  let age := (ageScan norm).map String.mk
  let serial := (serialOf norm).map String.mk
  let rel := relationOf (String.mk norm)
  let ens := enScanF norm.length false norm
  let his := hiScanF norm.length norm
  let voterName : Option String :=
    match ens with
    | e0 :: e1 :: _ => some (e0 ++ " " ++ e1)
    | [e0] =>
      match his with
      | h0 :: h1 :: _ => some (h0 ++ " " ++ h1)
      | _ => some e0
    | [] =>
      match his with
      | h0 :: h1 :: _ => some (h0 ++ " " ++ h1)
      | [h0] => some h0
      | [] => none
  let house := (houseSearch norm).map String.mk
  { stateName := meta "State Name"
    vidhanNameNumber :=
      pyStrip (metaGet meta "Vidhan sabha Name" "" ++ " " ++
        metaGet meta "Vidhan sabha Number" "")
    boothNameNumber :=
      pyStrip (metaGet meta "Booth Name" "" ++ " " ++
        metaGet meta "Booth Number" "")
    serial := serial
    voterName := voterName
    epic := epic
    relationName := rel.2
    relationKind := rel.1
    house := house
    age := age
    gender := gender
    sourcePdf := basename src }

/-- The keys of the composed dictionary, in construction order. -/
def voterRowKeys : List String :=
  ["State Name", "Vidhan sabha Name & Number", "Booth Name & Number",
   "Voter's Serial Number", "Voter's Name",
   "Voter ID (EPIC Number)",
   "Relation's Name (Father's or Husband's)",
   "Relation Type (Father or Husband)", "House Number", "Age", "Gender",
   "Source PDF"]

/-- The row rendered back as the Python dictionary's key/value pairs. -/
def rowPairs (r : VoterRow) : List (String × Option String) :=
  [("State Name", r.stateName),
   ("Vidhan sabha Name & Number", some r.vidhanNameNumber),
   ("Booth Name & Number", some r.boothNameNumber),
   ("Voter's Serial Number", r.serial),
   ("Voter's Name", r.voterName),
   ("Voter ID (EPIC Number)", r.epic),
   ("Relation's Name (Father's or Husband's)", r.relationName),
   ("Relation Type (Father or Husband)", r.relationKind),
   ("House Number", r.house),
   ("Age", r.age),
   ("Gender", r.gender),
   ("Source PDF", some r.sourcePdf)]

/-! ## Block segmentation

Lines 214-225 of `extract_from_pdf`: page text is split into stripped
non-empty lines; a line containing an `EPIC_REGEX` match opens a new
block, and every other line is appended (space-joined) to the last open
block, or dropped when no block is open.  Every block is parsed and the
resulting row (a non-empty dictionary, hence always truthy) is always
appended. -/

/-- The accumulator holds the blocks built so far, most recent first. -/
def segRevBlocks (accRev : List String) : List String → List String
  | [] => accRev.reverse
  | l :: ls =>
    if hasEpic l then segRevBlocks (l :: accRev) ls
    else
      match accRev with
      | [] => segRevBlocks [] ls
      | b :: bs => segRevBlocks ((b ++ " " ++ l) :: bs) ls

/-- Blocks of one page's already-stripped non-empty lines. -/
def segmentBlocks (lines : List String) : List String :=
  segRevBlocks [] lines

/-- Rows produced for one page: strip and drop empty lines, segment,
parse each block. -/
def extractRows (pageLines : List String) (meta : String → Option String)
    (src : String) : List VoterRow :=
  let lines := (pageLines.map pyStrip).filter (fun l => l != "")
  (segmentBlocks lines).map (fun b => parseVoterBlock b meta src)

/-! ## Header metadata

Lines 52-113: `extract_header_metadata`.  The first page's text is split
into stripped non-empty lines; state, constituency and booth are each
resolved by a first-match-wins scan, then the falsy fields receive their
fallbacks. -/

/-- The lookup `ST_CODE_TO_STATE` (line 26), with `dict.get(code, "")`
applied. -/
def stLookup (code : String) : String := if code = "S04" then "Bihar" else ""

/-- The lookup `AC_NO_TO_NAME` (line 29): `dict.get(num, fallback)`. -/
def acLookup (num fallback : String) : String :=
  if num = "240" then "Sikandra" else fallback

/-- Leftmost match of `ST_CODE_REGEX = r'\b(S\d{2})\b'` with
`re.IGNORECASE`: an `S` (either case) at a word boundary, two digits,
and a closing boundary; returns the matched text as it appears. -/
def stCodeScan : Bool → List Char → Option String
  | _, [] => none
  | prevW, c :: rest =>
    if (prevW != isWordChar c) && eqCI c 'S' then
      match rest with
      | d1 :: d2 :: rest2 =>
        if isDigitCh d1 && isDigitCh d2 && boundAfter d2 rest2 then
          some (String.mk [c, d1, d2])
        else
          stCodeScan (isWordChar c) rest
      | _ => stCodeScan (isWordChar c) rest
    else
      stCodeScan (isWordChar c) rest

/-- Leftmost match of `VIDHAN_REGEX = r'(\d+)\s*-\s*([^\n]+)'` on a
newline-free line: the digit group and the raw text after the dash
(non-empty; the second `\s*` backtracks so that at least one character
remains, and both uses strip the groups, so the raw tail is returned
and stripped at the call sites). -/
def dashScan : List Char → Option (String × String)
  | [] => none
  | c :: rest =>
    if isDigitCh c then
      let ds := c :: rest.takeWhile isDigitCh
      let r1 := (rest.dropWhile isDigitCh).dropWhile isWs
      match r1 with
      | '-' :: r2 =>
        if r2.isEmpty then dashScan rest
        else some (String.mk ds, String.mk r2)
      | _ => dashScan rest
    else
      dashScan rest

/-- Leftmost match of `BOOTH_NO_REGEX = r'भाग\s*[:\-]?\s*(\d+)'`. -/
def boothNoScan : List Char → Option String
  | [] => none
  | c :: rest =>
    match litCI "भाग".toList (c :: rest) with
    | some r1 =>
      let r2 := (optBoothSep (r1.dropWhile isWs)).dropWhile isWs
      let ds := r2.takeWhile isDigitCh
      if ds.isEmpty then boothNoScan rest else some (String.mk ds)
    | none => boothNoScan rest
where
  /-- The optional `[:\-]` separator. -/
  optBoothSep (s : List Char) : List Char :=
    match s with
    | d :: rest => if d = ':' || d = '-' then rest else d :: rest
    | [] => []

/-- Lines 85-93: scan for a line containing `मतदान` or `केंद्र`; in that
line and the two after it, take the first `\d+\s*-\s*(.+)` match's
stripped tail; an empty result sends the outer scan onward. -/
def boothNameLoop : List String → String
  | [] => ""
  | l :: rest =>
    if containsSub l "मतदान" || containsSub l "केंद्र" then
      match (l :: rest.take 2).findSome? (fun nxt => dashScan nxt.toList) with
      | some g =>
        if pyStrip g.2 = "" then boothNameLoop rest else pyStrip g.2
      | none => boothNameLoop rest
    else
      boothNameLoop rest

/-- The five header fields, with the names of the source's dictionary. -/
structure HeaderMeta where
  stateName : String
  vidhanName : String
  vidhanNumber : String
  boothName : String
  boothNumber : String
deriving DecidableEq

/-- Python's `if not x: x = d` on a string. -/
def fallbackIfEmpty (x d : String) : String := if x = "" then d else x

/-- Lines 52-113: `extract_header_metadata` over the first page's raw
lines. -/
def extractHeaderMetadata (raw : List String) : HeaderMeta :=
  let lines := (raw.map pyStrip).filter (fun l => l != "")
  let state0 :=
    match lines.findSome? (fun l => stCodeScan false l.toList) with
    | some code => stLookup code
    | none => ""
  let vid :=
    match lines.findSome? (fun l => dashScan l.toList) with
    | some g => (pyStrip g.1, acLookup (pyStrip g.1) (pyStrip g.2))
    | none => ("", "")
  let booth0 := (lines.findSome? (fun l => boothNoScan l.toList)).getD ""
  let bname0 := boothNameLoop lines
  { stateName := fallbackIfEmpty state0 "UnknownState"
    vidhanName := fallbackIfEmpty vid.2 "UnknownVidhanSabha"
    vidhanNumber := vid.1
    boothName := fallbackIfEmpty bname0 "UnknownBooth"
    boothNumber := booth0 }

/-- The header dictionary as the mapping handed to `parse_voter_block`. -/
def metaOf (h : HeaderMeta) : String → Option String := fun k =>
  if k = "State Name" then some h.stateName
  else if k = "Vidhan sabha Name" then some h.vidhanName
  else if k = "Vidhan sabha Number" then some h.vidhanNumber
  else if k = "Booth Name" then some h.boothName
  else if k = "Booth Number" then some h.boothNumber
  else none

/-! ## Definitions taken from the specification's words

These two definitions follow the specification, not the source; they
exist to be compared with the source's behaviour. -/

/-- The specification's anchor rule: a line starting with one to four
digits, whitespace, then a token of two or more uppercase letters
optionally followed by alphanumeric, hyphen or slash characters, with at
least three trailing digits. -/
def specAnchorRule (line : String) : Bool :=
  let cs := line.toList
  let ds := cs.takeWhile isDigitCh
  let r1 := cs.dropWhile isDigitCh
  let ws := r1.takeWhile isWs
  let r2 := r1.dropWhile isWs
  let ups := r2.takeWhile isUpperAZ
  let body := (r2.dropWhile isUpperAZ).takeWhile
    (fun c => c.isAlphanum || c = '-' || c = '/')
  let tok := ups ++ body
  decide (1 ≤ ds.length) && decide (ds.length ≤ 4) && !ws.isEmpty &&
    decide (2 ≤ ups.length) &&
    decide (3 ≤ (tok.reverse.takeWhile isDigitCh).length)

/-- All maximal digit runs of a list, in order; the fuel is the input
length. -/
def digitRunsF : Nat → List Char → List (List Char)
  | 0, _ => []
  | _ + 1, [] => []
  | n + 1, c :: rest =>
    if isDigitCh c then
      (c :: rest.takeWhile isDigitCh) :: digitRunsF n (rest.dropWhile isDigitCh)
    else
      digitRunsF n rest

/-- The specification's house-number reduction: the last embedded digit
run when one exists, otherwise the trimmed literal text. -/
def specHouseReduction (s : String) : String :=
  match (digitRunsF s.toList.length s.toList).getLast? with
  | some r => String.mk r
  | none => pyStrip s

/-! ## Concrete blocks used by the theorems -/

/-- The end-to-end scenario block of the specification. -/
def scenarioBlock : String :=
  "12 ABCD1234567\nVoter Name: राम कुमार\nपिता का नाम: श्याम कुमार\nउम्र: 45 लिंग: पुरुष"

/-! ## Claim theorems -/

/-- Claim C1: evaluation of `parse_voter_block` at the specification's
end-to-end scenario block.  Serial, voter name, relation type, age and
gender come out as the scenario states, but the identifier is the `None`
sentinel (the de-split pre-pass merges `...4567` with `Voter`, erasing
the word boundary `EPIC_REGEX` needs) and the relation name is the label
word `का`, not `श्याम कुमार`. -/
theorem c1_scenario_eval :
    (parseVoterBlock scenarioBlock noMeta "doc.pdf").serial = some "12" ∧
    (parseVoterBlock scenarioBlock noMeta "doc.pdf").epic = none ∧
    (parseVoterBlock scenarioBlock noMeta "doc.pdf").voterName = some "राम कुमार" ∧
    (parseVoterBlock scenarioBlock noMeta "doc.pdf").relationKind = some "Father" ∧
    (parseVoterBlock scenarioBlock noMeta "doc.pdf").relationName = some "का" ∧
    (parseVoterBlock scenarioBlock noMeta "doc.pdf").age = some "45" ∧
    (parseVoterBlock scenarioBlock noMeta "doc.pdf").gender = some "M" := by
  decide

/-- Claim C2, counterexample: a token outside the synonym table is
returned as itself, not mapped to an `Unknown` value. -/
theorem c2_gender_counterexample : normalizeGender "X" = some "X" := by
  decide

/-- Claim C3, counterexample: the line `HELLO12345 foo` does not have
the specification's serial-plus-identifier anchor shape, yet a record is
emitted for it, because the code opens a block for any line containing a
five-plus-character uppercase-alphanumeric token. -/
theorem c3_anchor_counterexample :
    (extractRows ["HELLO12345 foo"] noMeta "f.pdf").length = 1 ∧
    specAnchorRule "HELLO12345 foo" = false := by
  decide

/-- Claim C4, counterexample: the page `[ABCDEFG, 12 AB123]` has exactly
one line matching the specification's anchor rule, yet segmentation
yields two blocks, because the code's block opener is `EPIC_REGEX`
containment rather than the anchor rule. -/
theorem c4_segmentation_counterexample :
    specAnchorRule "ABCDEFG" = false ∧
    specAnchorRule "12 AB123" = true ∧
    segmentBlocks ["ABCDEFG", "12 AB123"] = ["ABCDEFG", "12 AB123"] := by
  decide

/-- Claim C6, counterexample: the captured house token `AB12CD34`
contains digits, but the code keeps it verbatim instead of reducing it
to its last digit run `34`. -/
theorem c6_house_counterexample :
    (houseSearch "H.No: AB12CD34".toList).map String.mk = some "AB12CD34" ∧
    specHouseReduction "AB12CD34" = "34" ∧
    ("AB12CD34" : String) ≠ "34" := by
  decide

/-- Claim C7, counterexample: a block containing both the father-class
keyword `पिता` and the husband-class keyword `W/O` is classified as
`Husband`, because the table's English keys are iterated before the
Devanagari ones. -/
theorem c7_precedence_counterexample :
    (parseVoterBlock "12 ABCDE1234 पिता श्याम W/O" noMeta "f.pdf").relationKind =
      some "Husband" := by
  decide

/-- Claim C8, counterexample: the de-split pass is not idempotent; a
second application merges further pairs. -/
theorem c8_idempotence_counterexample :
    desplitStr (desplitStr "A B C") ≠ desplitStr "A B C" := by
  decide

/-- Claim C9, counterexample: when nothing matches, the constituency and
booth number sub-fields are left as the empty string, not filled with a
sentinel. -/
theorem c9_sentinel_counterexample :
    (extractHeaderMetadata ["hello"]).vidhanNumber = "" ∧
    (extractHeaderMetadata ["hello"]).boothNumber = "" := by
  decide

/-- Claim C10, counterexample: a page whose block is opened by a line
containing an intact identifier still emits a record whose identifier
field is the `None` sentinel, because the de-split pre-pass merges the
identifier with the following word `Voter`. -/
theorem c10_epic_counterexample :
    (extractRows ["12 ABCD1234567", "Voter Name: Ram"] noMeta "f.pdf").map
      (fun r => r.epic) = [none] := by
  decide

/-- Claim C5: `parse_voter_block` is total — it is a function in this
embedding, with no exceptional path — and always yields the full fixed
field set, the unresolved fields of the empty block all being the `None`
sentinel. -/
theorem c5_total_fixed_schema (text : String) (meta : String → Option String)
    (src : String) :
    (rowPairs (parseVoterBlock text meta src)).map Prod.fst = voterRowKeys ∧
    (parseVoterBlock "" meta src).serial = none ∧
    (parseVoterBlock "" meta src).voterName = none ∧
    (parseVoterBlock "" meta src).epic = none ∧
    (parseVoterBlock "" meta src).relationName = none ∧
    (parseVoterBlock "" meta src).relationKind = none ∧
    (parseVoterBlock "" meta src).house = none ∧
    (parseVoterBlock "" meta src).age = none ∧
    (parseVoterBlock "" meta src).gender = none :=
  ⟨rfl, rfl, rfl, rfl, rfl, rfl, rfl, rfl, rfl⟩

/-- A non-empty fallback leaves the field non-empty. -/
theorem fallbackIfEmpty_ne (x d : String) (hd : d ≠ "") :
    fallbackIfEmpty x d ≠ "" := by
  unfold fallbackIfEmpty
  split
  · exact hd
  · assumption

/-- Claim C9, amended: the three name fields always end up non-empty
(either the resolved value or a sentinel), while the two number fields
default to the empty string. -/
theorem c9_header_names_nonempty (raw : List String) :
    (extractHeaderMetadata raw).stateName ≠ "" ∧
    (extractHeaderMetadata raw).vidhanName ≠ "" ∧
    (extractHeaderMetadata raw).boothName ≠ "" :=
  ⟨fallbackIfEmpty_ne _ _ (by decide), fallbackIfEmpty_ne _ _ (by decide),
   fallbackIfEmpty_ne _ _ (by decide)⟩

/-- Segmentation produces one block per `EPIC_REGEX`-matching line, on
top of the accumulator. -/
theorem segRevBlocks_length (ls : List String) : ∀ accRev : List String,
    (segRevBlocks accRev ls).length = accRev.length + ls.countP hasEpic := by
  induction ls with
  | nil => intro accRev; simp [segRevBlocks]
  | cons l ls ih =>
    intro accRev
    by_cases h : hasEpic l
    · simp only [segRevBlocks, h, if_true, ih, List.countP_cons, h,
        List.length_cons]
      omega
    · cases accRev with
      | nil =>
        simp [segRevBlocks, h, ih, List.countP_cons]
      | cons b bs =>
        simp [segRevBlocks, h, ih, List.countP_cons]

/-- Claim C3, amended: a page emits exactly one record per stripped
non-empty line containing an `EPIC_REGEX` match — the code's block
opener — regardless of the specification's serial-plus-identifier
anchor shape. -/
theorem c3_one_row_per_epic_line (pageLines : List String)
    (meta : String → Option String) (src : String) :
    (extractRows pageLines meta src).length =
      ((pageLines.map pyStrip).filter (fun l => l != "")).countP hasEpic := by
  unfold extractRows segmentBlocks
  simp [segRevBlocks_length]

/-- Leading lines without an `EPIC_REGEX` match are dropped while no
block is open. -/
theorem segRevBlocks_skip (pre : List String) : ∀ rest : List String,
    (∀ l ∈ pre, hasEpic l = false) →
    segRevBlocks [] (pre ++ rest) = segRevBlocks [] rest := by
  induction pre with
  | nil => intro rest _; rfl
  | cons l pre ih =>
    intro rest h
    have hl : hasEpic l = false := h l (List.mem_cons_self l pre)
    simp only [List.cons_append, segRevBlocks, hl, Bool.false_eq_true,
      if_false]
    exact ih rest (fun x hx => h x (List.mem_cons_of_mem l hx))

/-- Once a block is open, every following non-matching line is
space-joined onto it. -/
theorem segRevBlocks_tail (post : List String) : ∀ (b : String) (bs : List String),
    (∀ l ∈ post, hasEpic l = false) →
    segRevBlocks (b :: bs) post =
      (post.foldl (fun acc l => acc ++ " " ++ l) b :: bs).reverse := by
  induction post with
  | nil => intro b bs _; rfl
  | cons l post ih =>
    intro b bs h
    have hl : hasEpic l = false := h l (List.mem_cons_self l post)
    simp only [segRevBlocks, hl, Bool.false_eq_true, if_false,
      List.foldl_cons]
    exact ih (b ++ " " ++ l) bs (fun x hx => h x (List.mem_cons_of_mem l hx))

/-- Claim C4, amended: for a line sequence whose only `EPIC_REGEX`-matching
line is `a`, segmentation yields exactly the one block made of `a`
space-joined with every following line (with no line-count cap), and the
lines before `a` belong to no block. -/
theorem c4_single_anchor_segmentation (pre : List String) (a : String)
    (post : List String) (hpre : ∀ l ∈ pre, hasEpic l = false)
    (ha : hasEpic a = true) (hpost : ∀ l ∈ post, hasEpic l = false) :
    segmentBlocks (pre ++ a :: post) =
      [post.foldl (fun acc l => acc ++ " " ++ l) a] := by
  unfold segmentBlocks
  rw [segRevBlocks_skip pre (a :: post) hpre]
  simp only [segRevBlocks, ha, if_true]
  rw [segRevBlocks_tail post a [] hpost]
  rfl

/-- Claim C4, witness: a concrete page with one matching line. -/
theorem c4_single_anchor_witness :
    segmentBlocks ["x y", "ABCDE12", "tail"] = ["ABCDE12 tail"] :=
  (c4_single_anchor_segmentation ["x y"] "ABCDE12" ["tail"]
      (by decide) (by decide) (by decide)).trans (by decide)

/-- When the de-split pattern matches nowhere, the pass is the
identity, whatever the fuel. -/
theorem desplitF_id (n : Nat) : ∀ l : List Char,
    hasSplitPair l = false → desplitF n l = l := by
  induction n with
  | zero => intro l _; rfl
  | succ n ih =>
    intro l h
    cases l with
    | nil => rfl
    | cons c rest =>
      have h2 : hasSplitPair rest = false := by
        rw [hasSplitPair] at h
        exact (Bool.or_eq_false_iff.mp h).2
      by_cases hc : isUD c
      · rcases hdw : rest.dropWhile isWs with _ | ⟨d, rest3⟩
        · simp only [desplitF, hc, if_true, hdw]
          rw [ih rest h2]
        · have h1 : (isUD c && !(rest.takeWhile isWs).isEmpty &&
              isUD d) = false := by
            rw [hasSplitPair, hdw] at h
            exact (Bool.or_eq_false_iff.mp h).1
          have hg : (isUD d && !(rest.takeWhile isWs).isEmpty) = false := by
            rw [hc] at h1
            cases hd : isUD d <;> cases he : (rest.takeWhile isWs).isEmpty <;>
              simp_all
          simp only [desplitF, hc, if_true, hdw, hg, Bool.false_eq_true,
            if_false]
          rw [ih rest h2]
      · have hcf : isUD c = false := by simp_all
        simp only [desplitF, hcf, Bool.false_eq_true, if_false]
        rw [ih rest h2]

/-- Claim C8, amended: the de-split pass (the source's only per-block
text normalisation) is the identity — hence idempotent — on strings in
which no two `[A-Z0-9]` characters are separated only by whitespace; it
is not idempotent in general (see the counterexample). -/
theorem c8_identity_on_splitfree (s : String)
    (h : hasSplitPair s.toList = false) :
    desplitStr s = s ∧ desplitStr (desplitStr s) = desplitStr s := by
  have h1 : desplitStr s = s := by
    unfold desplitStr desplit
    rw [desplitF_id _ _ h]
    cases s
    rfl
  exact ⟨h1, by rw [h1]; exact h1⟩

/-- Claim C8, witness: a concrete split-free string. -/
theorem c8_identity_witness :
    desplitStr "XY" = "XY" ∧ desplitStr (desplitStr "XY") = desplitStr "XY" :=
  c8_identity_on_splitfree "XY" (by decide)

/-- Tokens the gender alternation can capture. -/
theorem genderTokenAt_mem (s tok after : List Char)
    (h : genderTokenAt s = some (tok, after)) :
    tok = ['M'] ∨ tok = ['m'] ∨ tok = ['F'] ∨ tok = ['f'] ∨
    tok = "पुरुष".toList ∨ tok = "महिला".toList ∨ tok = "स्त्री".toList := by
  cases s with
  | nil => simp [genderTokenAt] at h
  | cons c rest =>
    rw [genderTokenAt] at h
    split at h
    · rename_i hc
      simp only [Option.some.injEq, Prod.mk.injEq] at h
      obtain ⟨h1, -⟩ := h
      rw [← h1]
      simp only [Bool.or_eq_true, decide_eq_true_eq] at hc
      simp only [List.cons.injEq, and_true]
      tauto
    · split at h
      · simp only [Option.some.injEq, Prod.mk.injEq] at h
        simp [← h.1]
      · split at h
        · simp only [Option.some.injEq, Prod.mk.injEq] at h
          simp [← h.1]
        · split at h
          · simp only [Option.some.injEq, Prod.mk.injEq] at h
            simp [← h.1]
          · cases h

/-- Every captured gender token is one of the seven alternatives. -/
theorem genderScan_mem (s : List Char) : ∀ (pw : Bool) (g : List Char),
    genderScan pw s = some g →
    g = ['M'] ∨ g = ['m'] ∨ g = ['F'] ∨ g = ['f'] ∨
    g = "पुरुष".toList ∨ g = "महिला".toList ∨ g = "स्त्री".toList := by
  induction s with
  | nil => intro pw g h; simp [genderScan] at h
  | cons c rest ih =>
    intro pw g h
    by_cases hb : (pw != isWordChar c) = true
    · rcases hm : genderTokenAt (c :: rest) with _ | ⟨tok, after⟩
      · rw [genderScan, if_pos hb, hm] at h
        exact ih _ _ h
      · rw [genderScan, if_pos hb, hm] at h
        dsimp only [] at h
        by_cases hba : boundAfter (tok.getLastD c) after = true
        · rw [if_pos hba] at h
          obtain rfl : tok = g := Option.some.inj h
          exact genderTokenAt_mem _ _ _ hm
        · rw [if_neg hba] at h
          exact ih _ _ h
    · rw [genderScan, if_neg hb] at h
      exact ih _ _ h

/-- The gender field can only be absent, `M` or `F`: the scan only
produces table tokens and the normaliser maps each to `M` or `F`. -/
theorem genderOf_cases (norm : List Char) :
    genderOf norm = none ∨ genderOf norm = some "M" ∨
      genderOf norm = some "F" := by
  rw [genderOf]
  rcases hg : genderScan false norm with _ | g
  · exact Or.inl rfl
  · rcases genderScan_mem norm false g hg with rfl | rfl | rfl | rfl | rfl | rfl | rfl <;>
      decide

/-- Claim C2, amended: the documented synonyms map to `M`/`F` and the
empty token to `None`, but a non-empty token outside the table is
returned stripped and upper-cased — the raw token, not an `Unknown`
value.  Within `parse_voter_block` the normaliser only ever receives
tokens matched by `GENDER_REGEX`, so the emitted gender field is always
`None`, `M` or `F`. -/
theorem c2_gender_normalization :
    (normalizeGender "M" = some "M" ∧ normalizeGender "m" = some "M" ∧
     normalizeGender "F" = some "F" ∧ normalizeGender "f" = some "F" ∧
     normalizeGender "पुरुष" = some "M" ∧ normalizeGender "महिला" = some "F" ∧
     normalizeGender "स्त्री" = some "F") ∧
    (∀ g : String, g ≠ "" →
      pyUpper (pyStrip g) ∉ (["M", "पुरुष", "F", "महिला", "स्त्री"] : List String) →
      normalizeGender g = some (pyUpper (pyStrip g))) ∧
    (∀ (text : String) (meta : String → Option String) (src : String),
      (parseVoterBlock text meta src).gender = none ∨
      (parseVoterBlock text meta src).gender = some "M" ∨
      (parseVoterBlock text meta src).gender = some "F") := by
  refine ⟨by decide, ?_, ?_⟩
  · intro g hg hmem
    simp only [List.mem_cons, List.not_mem_nil, or_false, not_or] at hmem
    obtain ⟨h1, h2, h3, h4, h5⟩ := hmem
    simp [normalizeGender, hg, h1, h2, h3, h4, h5]
  · intro text meta src
    have hp : (parseVoterBlock text meta src).gender =
        genderOf (desplit text.toList) := rfl
    rw [hp]
    exact genderOf_cases _

/-- Claim C2, witness: a concrete out-of-table token. -/
theorem c2_gender_witness :
    normalizeGender "ZZ" = some (pyUpper (pyStrip "ZZ")) :=
  c2_gender_normalization.2.1 "ZZ" (by decide) (by decide)

/-- Claim C7, amended: relation classification follows the table's
insertion order — S/O, SON OF, FATHER, W/O, WIFE OF, HUSBAND, पिता,
पति.  The English father-class keywords do precede the husband-class
ones (a block containing FATHER always classifies as Father), but the
Devanagari पिता comes after every English keyword, so a block containing
both पिता and W/O (and no earlier father-class keyword) classifies as
Husband; the table has no wife- or mother-class keywords at all. -/
theorem c7_relation_precedence :
    (∀ s : String, containsSub (pyUpper s) "FATHER" = true →
      (relationOf s).1 = some "Father") ∧
    (∀ s : String, containsSub (pyUpper s) "W/O" = true →
      containsSub (pyUpper s) "S/O" = false →
      containsSub (pyUpper s) "SON OF" = false →
      containsSub (pyUpper s) "FATHER" = false →
      (relationOf s).1 = some "Husband") := by
  constructor
  · intro s h
    rw [relationOf]
    simp only [relationKeys, findRel]
    by_cases h1 : containsSub (pyUpper s) (pyUpper "S/O") = true
    · simp [h1]
    · by_cases h2 : containsSub (pyUpper s) (pyUpper "SON OF") = true
      · simp [h1, h2]
      · have h3 : containsSub (pyUpper s) (pyUpper "FATHER") = true := h
        simp [h1, h2, h3]
  · intro s hW hS hSon hF
    rw [relationOf]
    simp only [relationKeys, findRel]
    have h1 : containsSub (pyUpper s) (pyUpper "S/O") = false := hS
    have h2 : containsSub (pyUpper s) (pyUpper "SON OF") = false := hSon
    have h3 : containsSub (pyUpper s) (pyUpper "FATHER") = false := hF
    have h4 : containsSub (pyUpper s) (pyUpper "W/O") = true := hW
    simp [h1, h2, h3, h4]

/-- Claim C7, witness: a block text containing both `पिता` and `W/O`. -/
theorem c7_relation_witness : (relationOf "पिता W/O").1 = some "Husband" :=
  c7_relation_precedence.2 "पिता W/O" (by decide) (by decide) (by decide)
    (by decide)

/-- A consumed character leaves a suffix. -/
theorem ciChar_suffix (c : Char) (s r : List Char) (h : ciChar c s = some r) :
    r <:+ s := by
  cases s with
  | nil => cases h
  | cons d rest =>
    rw [ciChar] at h
    split at h
    · obtain rfl := Option.some.inj h
      exact List.suffix_cons d rest
    · cases h

/-- A consumed literal leaves a suffix. -/
theorem litCI_suffix (key : List Char) : ∀ s r : List Char,
    litCI key s = some r → r <:+ s := by
  induction key with
  | nil =>
    intro s r h
    obtain rfl := Option.some.inj h
    exact List.suffix_rfl
  | cons c cs ih =>
    intro s r h
    rw [litCI] at h
    rcases hc : ciChar c s with _ | s1 <;> rw [hc] at h
    · cases h
    · dsimp only [Option.bind] at h
      exact (ih s1 r h).trans (ciChar_suffix c s s1 hc)

/-- An optional character leaves a suffix. -/
theorem optChar_suffix (c : Char) (s : List Char) : optChar c s <:+ s := by
  cases s with
  | nil => exact List.suffix_rfl
  | cons d rest =>
    rw [optChar]
    split
    · exact List.suffix_cons d rest
    · exact List.suffix_rfl

/-- The optional colon leaves a suffix. -/
theorem optColon_suffix (s : List Char) : optColon s <:+ s := by
  cases s with
  | nil => exact List.suffix_rfl
  | cons d rest =>
    rw [optColon]
    split
    · exact List.suffix_cons d rest
    · exact List.suffix_rfl

/-- The Latin house label leaves a suffix of its input. -/
theorem houseLabel1_suffix (s r : List Char) (h : houseLabel1 s = some r) :
    r <:+ s := by
  rw [houseLabel1] at h
  rcases h1 : ciChar 'H' s with _ | s1 <;> rw [h1] at h
  · cases h
  · dsimp only [Option.bind] at h
    rcases h2 : ciChar 'N' ((optChar '.' s1).dropWhile isWs) with _ | s3 <;>
      rw [h2] at h
    · cases h
    · dsimp only [Option.bind] at h
      rcases h3 : ciChar 'O' s3 with _ | s4 <;> rw [h3] at h
      · cases h
      · dsimp only [Option.bind] at h
        obtain rfl := Option.some.inj h
        have t4 : houseLabel1.optColon' s4 <:+ s4 := by
          rw [houseLabel1.optColon']
          exact (List.dropWhile_suffix isWs).trans
            ((optChar_suffix ':' _).trans (optChar_suffix '.' _))
        exact t4.trans ((ciChar_suffix _ _ _ h3).trans
          ((ciChar_suffix _ _ _ h2).trans
            (((List.dropWhile_suffix isWs).trans (optChar_suffix '.' s1)).trans
              (ciChar_suffix _ _ _ h1))))

/-- The Hindi house label leaves a suffix of its input. -/
theorem houseLabel2_suffix (s r : List Char) (h : houseLabel2 s = some r) :
    r <:+ s := by
  rw [houseLabel2] at h
  rcases h1 : litCI "मकान".toList s with _ | s1 <;> rw [h1] at h
  · cases h
  · dsimp only [Option.bind] at h
    rcases h2 : litCI "सखंया".toList (s1.dropWhile isWs) with _ | s2 <;>
      rw [h2] at h
    · cases h
    · dsimp only [Option.bind] at h
      obtain rfl := Option.some.inj h
      exact ((List.dropWhile_suffix isWs).trans
          ((optColon_suffix _).trans (List.dropWhile_suffix isWs))).trans
        ((litCI_suffix _ _ _ h2).trans
          ((List.dropWhile_suffix isWs).trans (litCI_suffix _ _ _ h1)))

/-- The `(\w+)` capture is a non-empty word-character prefix. -/
theorem wordTok_spec (s t : List Char) (h : wordTok s = some t) :
    t ≠ [] ∧ t.all isWordChar = true ∧ t <+: s := by
  rw [wordTok] at h
  split at h
  · cases h
  · rename_i hne
    obtain rfl := Option.some.inj h
    refine ⟨by simpa using hne, ?_, List.takeWhile_prefix isWordChar⟩
    rw [List.all_eq_true]
    intro x hx
    exact List.mem_takeWhile_imp hx

/-- A house capture at one position is a verbatim non-empty
word-character infix. -/
theorem houseAt_spec (s t : List Char) (h : houseAt s = some t) :
    t ≠ [] ∧ t.all isWordChar = true ∧ t <:+: s := by
  rw [houseAt] at h
  rcases h1 : (houseLabel1 s).bind wordTok with _ | t1 <;> rw [h1] at h
  · dsimp only [] at h
    obtain ⟨r2, hr2, ht⟩ := Option.bind_eq_some.mp h
    obtain ⟨hne, hall, hpre⟩ := wordTok_spec _ _ ht
    exact ⟨hne, hall, hpre.isInfix.trans (houseLabel2_suffix _ _ hr2).isInfix⟩
  · dsimp only [] at h
    obtain rfl := Option.some.inj h
    obtain ⟨r1, hr1, ht⟩ := Option.bind_eq_some.mp h1
    obtain ⟨hne, hall, hpre⟩ := wordTok_spec _ _ ht
    exact ⟨hne, hall, hpre.isInfix.trans (houseLabel1_suffix _ _ hr1).isInfix⟩

/-- Claim C6, amended: the extracted house number is the first word
token after a house-number label, kept verbatim — a non-empty run of
word characters occurring contiguously in the block text; no
last-digit-run reduction and no further trimming is applied (see the
counterexample for a digit-bearing token kept whole). -/
theorem c6_house_token_verbatim (s : List Char) : ∀ t : List Char,
    houseSearch s = some t →
    t ≠ [] ∧ t.all isWordChar = true ∧ t <:+: s := by
  induction s with
  | nil => intro t h; cases h
  | cons c rest ih =>
    intro t h
    rw [houseSearch] at h
    rcases ha : houseAt (c :: rest) with _ | t1 <;> rw [ha] at h
    · dsimp only [] at h
      obtain ⟨hne, hall, hinf⟩ := ih t h
      exact ⟨hne, hall, hinf.trans (List.suffix_cons c rest).isInfix⟩
    · dsimp only [] at h
      obtain rfl := Option.some.inj h
      exact houseAt_spec _ _ ha

/-- Claim C6, witness: the digit-bearing captured token of the
counterexample, verbatim in the block text. -/
theorem c6_house_witness :
    "AB12CD34".toList ≠ ([] : List Char) ∧
    "AB12CD34".toList.all isWordChar = true ∧
    "AB12CD34".toList <:+: "H.No: AB12CD34".toList :=
  c6_house_token_verbatim "H.No: AB12CD34".toList "AB12CD34".toList (by decide)

/-- Every `EPIC_REGEX` match is a run of at least five `[A-Z0-9]`
characters. -/
theorem epicScan_spec (s : List Char) : ∀ (pw : Bool) (run : List Char),
    epicScan pw s = some run →
    5 ≤ run.length ∧ run.all isUD = true := by
  induction s with
  | nil => intro pw run h; cases h
  | cons c rest ih =>
    intro pw run h
    rw [epicScan] at h
    split at h
    · rename_i hc
      dsimp only [] at h
      split at h
      · rename_i hg
        obtain rfl := Option.some.inj h
        simp only [Bool.and_eq_true, decide_eq_true_eq] at hg hc
        refine ⟨hg.1, ?_⟩
        rw [List.all_eq_true]
        intro x hx
        rcases List.mem_cons.mp hx with rfl | hx2
        · exact hc.1
        · exact List.mem_takeWhile_imp hx2
      · exact ih _ _ h
    · exact ih _ _ h

/-- Claim C10, amended: not every emitted record carries an identifier —
the de-split pre-pass can merge the identifier token with a following
word and erase the boundary the search needs, leaving the `None`
sentinel (see the counterexample) — but whenever the identifier field of
an emitted record is present, it is a token of at least five
uppercase-alphanumeric characters. -/
theorem c10_epic_shape (pageLines : List String)
    (meta : String → Option String) (src : String) (r : VoterRow)
    (e : String) (hr : r ∈ extractRows pageLines meta src)
    (he : r.epic = some e) :
    5 ≤ e.length ∧ e.toList.all isUD = true := by
  simp only [extractRows] at hr
  obtain ⟨b, -, rfl⟩ := List.mem_map.mp hr
  have hpe : (parseVoterBlock b meta src).epic =
      (epicScan false (desplit b.toList)).map String.mk := rfl
  rw [hpe] at he
  obtain ⟨run, hrun, rfl⟩ := Option.map_eq_some'.mp he
  obtain ⟨hlen, hall⟩ := epicScan_spec _ _ _ hrun
  exact ⟨hlen, hall⟩

/-- Claim C10, witness: a one-line page whose record keeps its
identifier. -/
theorem c10_epic_witness :
    5 ≤ String.length "ABCDE" ∧ "ABCDE".toList.all isUD = true :=
  c10_epic_shape ["ABCDE"] noMeta "f.pdf"
    (parseVoterBlock "ABCDE" noMeta "f.pdf") "ABCDE" (by decide) (by decide)
